import Mathlib

/-!
Verification of the xcute per-line execution pipeline (`main.go`).

The embedding models `processStdin`, `replacePlaceholders`, and the executor
capability as pure Lean functions.  Executor statuses are scripted by
invocation index (the test-substitute executor of the design notes), and
interactive confirmation responses are scripted by prompt index.  All
observable side effects (executor invocations, primary-output lines,
diagnostic-stream events, interval sleeps) are collected in a trace.
-/

/-- `Options` mirrors the `Options` struct of `main.go` (flag-parsed
configuration).  `interval` is the `-t` value; the code only ever tests
`interval > 0`, so a rational faithfully stands in for the float. -/
structure Options where
  dryRun : Bool
  interactive : Bool
  showWhat : Bool
  showCommand : Bool
  forceContinue : Bool
  interval : ℚ
  shellMode : Bool

/-- One call handed to the command-executor capability: either
`executeShellCommand command` or `executeDirectCommand args`. -/
inductive ExecCall where
  | shell (command : String)
  | direct (args : List String)
deriving DecidableEq

/-- Diagnostic-stream and timing events emitted by `processStdin`, in order. -/
inductive Event where
  | emptyNotice
  | targetDisplay (line : String)
  | commandDisplay (display : String)
  | prompt (display : String)
  | exitDisplay (code : Int)
  | sleep
deriving DecidableEq

/-- The observable trace of a run: executor invocations in order, lines
printed to standard output (dry-run previews), and diagnostic events. -/
structure Trace where
  invocations : List ExecCall
  stdoutLines : List String
  events : List Event
deriving DecidableEq

/-- Concatenation of traces (effects of sequential program fragments). -/
def Trace.app (a b : Trace) : Trace :=
  ⟨a.invocations ++ b.invocations, a.stdoutLines ++ b.stdoutLines,
    a.events ++ b.events⟩

/-- The empty trace. -/
def Trace.nil : Trace := ⟨[], [], []⟩

/-- Outcome of `processStdin` combined with `main`'s reaction:
`ok` = `processStdin` returned `nil`; `errStop code` = the stop-on-error
branch returned `fmt.Errorf("command failed with exit code %d", code)`;
`exitLast code` = the final `os.Exit(lastErrorCode)` (`main.go:170-172`). -/
inductive RunResult where
  | ok
  | errStop (code : Int)
  | exitLast (code : Int)
deriving DecidableEq

/-- The host process's final exit status for each outcome, per `main.go`:
`main` calls `os.Exit(1)` whenever `processStdin` returns an error
(`main.go:63-66`), and `processStdin` itself calls
`os.Exit(lastErrorCode)` in the force-continue path (`main.go:170-172`). -/
def hostExit : RunResult → Int
  | RunResult.ok => 0
  | RunResult.errStop _ => 1
  | RunResult.exitLast c => c

/-- True on carriage-return and line-feed, the cutset of
`strings.TrimRight(scanner.Text(), "\n\r")` at `main.go:74`. -/
def isNR (c : Char) : Bool := c == '\n' || c == '\r'

/-- Go `strings.TrimRight(s, "\n\r")`: remove ALL trailing characters
belonging to the cutset. -/
def trimRightNR (s : String) : String :=
  ⟨(s.data.reverse.dropWhile isNR).reverse⟩

/-- Character-level model of Go `strings.ReplaceAll(template, "\x7b\x7d", input)`:
a single left-to-right scan replacing each non-overlapping occurrence of
the two-character marker by `rep`; the inserted copy is not rescanned. -/
def replBr (rep : List Char) : List Char → List Char
  | [] => []
  | [c] => [c]
  | c :: d :: rest =>
    if c = '\x7b' ∧ d = '\x7d' then rep ++ replBr rep rest
    else c :: replBr rep (d :: rest)

/-- `replacePlaceholders` of `main.go:177-179`:
`strings.ReplaceAll(template, "\x7b\x7d", input)`. -/
def replacePlaceholders (template input : String) : String :=
  ⟨replBr input.data template.data⟩

/-- Number of non-overlapping occurrences of the marker found by the same
left-to-right scan. -/
def countBr : List Char → Nat
  | [] => 0
  | [_] => 0
  | c :: d :: rest =>
    if c = '\x7b' ∧ d = '\x7d' then countBr rest + 1
    else countBr (d :: rest)

/-- Whether the marker occurs anywhere in the string. -/
def hasBr : List Char → Bool
  | [] => false
  | [_] => false
  | c :: d :: rest => (c = '\x7b' && d = '\x7d') || hasBr (d :: rest)

/-- The segments of a template between consecutive marker occurrences, in
order (one more segment than there are occurrences). -/
def splitBr : List Char → List (List Char)
  | [] => [[]]
  | [c] => [[c]]
  | c :: d :: rest =>
    if c = '\x7b' ∧ d = '\x7d' then [] :: splitBr rest
    else
      match splitBr (d :: rest) with
      | [] => [[c]]
      | p :: ps => (c :: p) :: ps

/-- Interleave a separator between segments (inverse of splitting). -/
def joinSep (sep : List Char) : List (List Char) → List Char
  | [] => []
  | [p] => p
  | p :: q :: ps => p ++ sep ++ joinSep sep (q :: ps)

/-- Position-based occurrence count: for every suffix of the string
(i.e. every starting index), add one when the marker starts there.
Counts occurrences independently of the replacing scan (and would count
overlapping starts, though this marker cannot overlap itself). -/
def countPos : List Char → Nat
  | [] => 0
  | c :: l => (if (c :: l).take 2 = ['\x7b', '\x7d'] then 1 else 0) + countPos l

/-- The resolved command handed to the executor for one input line:
shell mode substitutes into the single template string; direct mode
substitutes element-wise into the argument vector. -/
def resolvedCall (opts : Options) (args : List String) (line : String) :
    ExecCall :=
  if opts.shellMode then
    ExecCall.shell (replacePlaceholders (args.headD "") line)
  else
    ExecCall.direct (args.map (fun a => replacePlaceholders a line))

/-- The display string for one resolved command (`commandDisplay` in the
source): the shell command itself, or `strings.Join(commandArgs, " ")`. -/
def resolvedDisplay (opts : Options) (args : List String) (line : String) :
    String :=
  if opts.shellMode then replacePlaceholders (args.headD "") line
  else String.intercalate " " (args.map (fun a => replacePlaceholders a line))

/-- The tail of one non-empty line's processing, after the target display:
command display, dry-run preview, interactive confirmation, execution,
exit-status display, error bookkeeping and interval wait
(`main.go:89-163`).  `i` is the invocation index, `p` the prompt index,
`e` the running `lastErrorCode`.  The final component is `some code` when
the stop-on-error branch returns an error. -/
def lineTail (opts : Options) (script : Nat → Int) (responses : Nat → String)
    (display : String) (call : ExecCall) (i p : Nat) (e : Int) :
    Trace × Nat × Nat × Int × Option Int :=
  let evCmd : List Event :=
    if opts.showCommand then [Event.commandDisplay display] else []
  if opts.dryRun then
    (⟨[], [display], evCmd⟩, i, p, e, none)
  else
    let evPr : List Event :=
      if opts.interactive then [Event.prompt display] else []
    let p' : Nat := if opts.interactive then p + 1 else p
    if opts.interactive && (responses p != "y") && (responses p != "Y") then
      (⟨[], [], evCmd ++ evPr⟩, i, p', e, none)
    else
      let code := script i
      let evExit : List Event :=
        if opts.showCommand then [Event.exitDisplay code] else []
      if code = 0 then
        let evSl : List Event := if 0 < opts.interval then [Event.sleep] else []
        (⟨[call], [], evCmd ++ evPr ++ evExit ++ evSl⟩, i + 1, p', e, none)
      else if opts.forceContinue then
        let evSl : List Event := if 0 < opts.interval then [Event.sleep] else []
        (⟨[call], [], evCmd ++ evPr ++ evExit ++ evSl⟩, i + 1, p', code, none)
      else
        (⟨[call], [], evCmd ++ evPr ++ evExit⟩, i + 1, p', code, some code)

/-- The scanner loop of `processStdin` (`main.go:73-164`) over the list of
scanned line texts.  Returns the trace, the final `lastErrorCode`, and
`some code` when the loop was halted by the stop-on-error return. -/
def runLines (opts : Options) (args : List String) (script : Nat → Int)
    (responses : Nat → String) :
    List String → Nat → Nat → Int → Trace × Int × Option Int
  | [], _, _, e => (Trace.nil, e, none)
  | l :: rest, i, p, e =>
    let line := trimRightNR l
    if line = "" then
      let t0 : Trace :=
        ⟨[], [],
          if opts.showWhat || opts.showCommand then [Event.emptyNotice] else []⟩
      let r := runLines opts args script responses rest i p e
      (t0.app r.1, r.2)
    else
      let t1 : Trace :=
        ⟨[], [], if opts.showWhat then [Event.targetDisplay line] else []⟩
      let step :=
        if opts.shellMode then
          let command := replacePlaceholders (args.headD "") line
          lineTail opts script responses command (ExecCall.shell command) i p e
        else
          let commandArgs := args.map (fun a => replacePlaceholders a line)
          lineTail opts script responses
            (String.intercalate " " commandArgs)
            (ExecCall.direct commandArgs) i p e
      match step with
      | (t2, _, _, e', some c) => (t1.app t2, e', some c)
      | (t2, i', p', e', none) =>
        let r := runLines opts args script responses rest i' p' e'
        (t1.app (t2.app r.1), r.2)

/-- `processStdin` (`main.go:69-175`) followed by `main`'s exit handling:
a stop-on-error return becomes `errStop`; otherwise a non-zero
`lastErrorCode` triggers `os.Exit(lastErrorCode)` (`exitLast`), else the
run is `ok`. -/
def processStdin (opts : Options) (args : List String) (script : Nat → Int)
    (responses : Nat → String) (input : List String) : Trace × RunResult :=
  let r := runLines opts args script responses input 0 0 0
  match r.2.2 with
  | some c => (r.1, RunResult.errStop c)
  | none =>
    if r.2.1 = 0 then (r.1, RunResult.ok) else (r.1, RunResult.exitLast r.2.1)

/-- The two-character occurrence marker. -/
def brPat : List Char := ['\x7b', '\x7d']

theorem splitBr_ne_nil (l : List Char) : splitBr l ≠ [] := by
  induction l using countBr.induct with
  | case1 => simp [splitBr]
  | case2 c => simp [splitBr]
  | case3 c d rest h ih => simp [splitBr, h]
  | case4 c d rest h ih =>
    obtain ⟨p, ps, hp⟩ := List.exists_cons_of_ne_nil ih
    simp [splitBr, h, hp]

theorem joinSep_cons_head (sep p : List Char) (c : Char)
    (ps : List (List Char)) :
    joinSep sep ((c :: p) :: ps) = c :: joinSep sep (p :: ps) := by
  cases ps <;> simp [joinSep]

theorem joinSep_splitBr (l : List Char) : joinSep brPat (splitBr l) = l := by
  induction l using countBr.induct with
  | case1 => simp [splitBr, joinSep]
  | case2 c => simp [splitBr, joinSep]
  | case3 c d rest h ih =>
    obtain ⟨q, qs, hq⟩ := List.exists_cons_of_ne_nil (splitBr_ne_nil rest)
    obtain ⟨hc, hd⟩ := h
    subst hc hd
    rw [show splitBr ('\x7b' :: '\x7d' :: rest) = [] :: splitBr rest from by
      simp [splitBr], hq,
      show joinSep brPat ([] :: q :: qs) = brPat ++ joinSep brPat (q :: qs) from
        by simp [joinSep], ← hq, ih]
    rfl
  | case4 c d rest h ih =>
    obtain ⟨p, ps, hp⟩ := List.exists_cons_of_ne_nil (splitBr_ne_nil (d :: rest))
    rw [show splitBr (c :: d :: rest) = (c :: p) :: ps from by
      simp [splitBr, h, hp], joinSep_cons_head, ← hp, ih]

theorem replBr_eq_joinSep (rep l : List Char) :
    replBr rep l = joinSep rep (splitBr l) := by
  induction l using countBr.induct with
  | case1 => simp [splitBr, joinSep, replBr]
  | case2 c => simp [splitBr, joinSep, replBr]
  | case3 c d rest h ih =>
    obtain ⟨q, qs, hq⟩ := List.exists_cons_of_ne_nil (splitBr_ne_nil rest)
    obtain ⟨hc, hd⟩ := h
    subst hc hd
    rw [show splitBr ('\x7b' :: '\x7d' :: rest) = [] :: splitBr rest from by
      simp [splitBr], hq]
    simp [replBr, joinSep]
    rw [show replBr rep rest = joinSep rep (q :: qs) from by rw [← hq]; exact ih]
  | case4 c d rest h ih =>
    obtain ⟨p, ps, hp⟩ := List.exists_cons_of_ne_nil (splitBr_ne_nil (d :: rest))
    rw [show splitBr (c :: d :: rest) = (c :: p) :: ps from by
      simp [splitBr, h, hp], joinSep_cons_head, ← hp, ← ih,
      show replBr rep (c :: d :: rest) = c :: replBr rep (d :: rest) from by
        simp [replBr, h]]

theorem splitBr_length (l : List Char) :
    (splitBr l).length = countBr l + 1 := by
  induction l using countBr.induct with
  | case1 => simp [splitBr, countBr]
  | case2 c => simp [splitBr, countBr]
  | case3 c d rest h ih => simp [splitBr, countBr, h, ih]
  | case4 c d rest h ih =>
    obtain ⟨p, ps, hp⟩ := List.exists_cons_of_ne_nil (splitBr_ne_nil (d :: rest))
    rw [show splitBr (c :: d :: rest) = (c :: p) :: ps from by
      simp [splitBr, h, hp], show countBr (c :: d :: rest) = countBr (d :: rest)
        from by simp [countBr, h]]
    have h2 := ih
    rw [hp] at h2
    simp only [List.length_cons] at h2 ⊢
    omega

theorem splitBr_no_marker (l : List Char) :
    ∀ q ∈ splitBr l, hasBr q = false := by
  induction l using countBr.induct with
  | case1 => simp [splitBr, hasBr]
  | case2 c => simp [splitBr, hasBr]
  | case3 c d rest h ih =>
    obtain ⟨hc, hd⟩ := h
    subst hc hd
    rw [show splitBr ('\x7b' :: '\x7d' :: rest) = [] :: splitBr rest from by
      simp [splitBr]]
    intro q hq
    rcases List.mem_cons.mp hq with hq | hq
    · subst hq; simp [hasBr]
    · exact ih q hq
  | case4 c d rest h ih =>
    obtain ⟨p, ps, hp⟩ := List.exists_cons_of_ne_nil (splitBr_ne_nil (d :: rest))
    rw [show splitBr (c :: d :: rest) = (c :: p) :: ps from by
      simp [splitBr, h, hp]]
    intro q hq
    rcases List.mem_cons.mp hq with hq | hq
    · subst hq
      have hpmem : hasBr p = false := ih p (by rw [hp]; exact List.mem_cons_self _ _)
      cases p with
      | nil => simp [hasBr]
      | cons p0 p' =>
        have hjoin := joinSep_splitBr (d :: rest)
        rw [hp, joinSep_cons_head] at hjoin
        have hd0 : p0 = d := (List.cons.injEq _ _ _ _ ▸ hjoin).1
        subst hd0
        have : ¬(c = '\x7b' ∧ p0 = '\x7d') := h
        simp [hasBr, hpmem]
        intro hc; by_contra hne
        exact this ⟨hc, by simpa using hne⟩
    · exact ih q (by rw [hp]; exact List.mem_cons_of_mem _ hq)

theorem countBr_eq_zero_iff (l : List Char) :
    countBr l = 0 ↔ hasBr l = false := by
  induction l using countBr.induct with
  | case1 => simp [countBr, hasBr]
  | case2 c => simp [countBr, hasBr]
  | case3 c d rest h ih =>
    obtain ⟨hc, hd⟩ := h
    subst hc hd
    simp [countBr, hasBr]
  | case4 c d rest h ih =>
    have hb : (c = '\x7b' && d = '\x7d') = false := by
      by_contra hne
      exact h (by simpa using Bool.of_not_eq_false hne)
    simp [countBr, hasBr, h, hb, ih]

theorem replBr_of_no_marker (rep l : List Char) (h : hasBr l = false) :
    replBr rep l = l := by
  have h0 : countBr l = 0 := (countBr_eq_zero_iff l).mpr h
  have hlen : (splitBr l).length = 1 := by rw [splitBr_length, h0]
  obtain ⟨q, hq⟩ := List.length_eq_one.mp hlen
  have hj := joinSep_splitBr l
  rw [hq] at hj
  simp [joinSep] at hj
  rw [replBr_eq_joinSep, hq]
  simpa [joinSep] using hj

theorem hasBr_iff_decomp (l : List Char) :
    hasBr l = true ↔ ∃ x y, l = x ++ '\x7b' :: '\x7d' :: y := by
  constructor
  · intro h
    induction l using hasBr.induct with
    | case1 => simp [hasBr] at h
    | case2 c => simp [hasBr] at h
    | case3 c d rest ih =>
      simp [hasBr] at h
      rcases h with ⟨hc, hd⟩ | h
      · exact ⟨[], rest, by simp [hc, hd]⟩
      · obtain ⟨x, y, hxy⟩ := ih h
        exact ⟨c :: x, y, by rw [List.cons_append, hxy]⟩
  · rintro ⟨x, y, rfl⟩
    induction x with
    | nil => simp [hasBr]
    | cons c x' ih =>
      have hne : x' ++ '\x7b' :: '\x7d' :: y ≠ [] := by simp
      obtain ⟨m0, m', hm⟩ := List.exists_cons_of_ne_nil hne
      rw [List.cons_append, hm]
      rw [hm] at ih
      simp [hasBr] at ih ⊢
      exact Or.inr ih

theorem countBr_eq_countPos (l : List Char) : countBr l = countPos l := by
  induction l using countBr.induct with
  | case1 => simp [countBr, countPos]
  | case2 c =>
    have e : ([c]).take 2 = [c] := rfl
    simp [countBr, countPos, e]
  | case3 c d rest h ih =>
    obtain ⟨hc, hd⟩ := h
    subst hc hd
    have e1 : (('\x7b') :: ('\x7d') :: rest).take 2 = ['\x7b', '\x7d'] := rfl
    have e2 : (('\x7d') :: rest).take 2 = ('\x7d') :: rest.take 1 := rfl
    simp [countBr, countPos, e1, e2, ih, Nat.add_comm]
  | case4 c d rest h ih =>
    have e : (c :: d :: rest).take 2 = [c, d] := rfl
    have hne : ¬([c, d] = ['\x7b', '\x7d']) := fun hcd =>
      h (by simpa using hcd)
    simp [countBr, countPos, e, h, hne, ih]

/-- The lines of the input that survive the empty-line skip, after
line-terminator stripping. -/
def nonemptyLines (input : List String) : List String :=
  (input.map trimRightNR).filter (fun s => s ≠ "")

/-- The evolution of `lastErrorCode` across `n` consecutive executor
invocations starting at invocation index `i`, from initial value `e`. -/
def foldErr (script : Nat → Int) : Nat → Nat → Int → Int
  | _, 0, e => e
  | i, n + 1, e => foldErr script (i + 1) n (if script i = 0 then e else script i)

/-- Recognizes an interactive confirmation prompt event. -/
def isPromptEv : Event → Bool
  | Event.prompt _ => true
  | _ => false

/-- Recognizes an exit-status display or interval-sleep event. -/
def isExitOrSleep : Event → Bool
  | Event.exitDisplay _ => true
  | Event.sleep => true
  | _ => false

theorem runLines_cons_step (opts : Options) (args : List String)
    (script : Nat → Int) (responses : Nat → String) (l : String)
    (rest : List String) (i p : Nat) (e : Int)
    (hne : ¬(trimRightNR l = "")) :
    runLines opts args script responses (l :: rest) i p e =
      (match lineTail opts script responses
          (resolvedDisplay opts args (trimRightNR l))
          (resolvedCall opts args (trimRightNR l)) i p e with
       | (t2, _, _, e', some c) =>
         ((⟨[], [],
            if opts.showWhat then [Event.targetDisplay (trimRightNR l)]
            else []⟩ : Trace).app t2, e', some c)
       | (t2, i', p', e', none) =>
         ((⟨[], [],
            if opts.showWhat then [Event.targetDisplay (trimRightNR l)]
            else []⟩ : Trace).app
              (t2.app (runLines opts args script responses rest i' p' e').1),
          (runLines opts args script responses rest i' p' e').2)) := by
  by_cases hs : opts.shellMode <;>
    simp [runLines, hne, resolvedDisplay, resolvedCall, hs]

theorem lineTail_dry (opts : Options) (script : Nat → Int)
    (responses : Nat → String) (display : String) (call : ExecCall)
    (i p : Nat) (e : Int) (hd : opts.dryRun = true) :
    lineTail opts script responses display call i p e =
      (⟨[], [display],
        if opts.showCommand then [Event.commandDisplay display] else []⟩,
        i, p, e, none) := by
  simp [lineTail, hd]

theorem lineTail_declined (opts : Options) (script : Nat → Int)
    (responses : Nat → String) (display : String) (call : ExecCall)
    (i p : Nat) (e : Int) (hd : opts.dryRun = false)
    (hi : opts.interactive = true)
    (hr : responses p ≠ "y" ∧ responses p ≠ "Y") :
    lineTail opts script responses display call i p e =
      (⟨[], [],
        (if opts.showCommand then [Event.commandDisplay display] else [])
          ++ [Event.prompt display]⟩,
        i, p + 1, e, none) := by
  simp [lineTail, hd, hi, hr.1, hr.2]

theorem lineTail_exec_zero (opts : Options) (script : Nat → Int)
    (responses : Nat → String) (display : String) (call : ExecCall)
    (i p : Nat) (e : Int) (hd : opts.dryRun = false)
    (hi : opts.interactive = false) (hz : script i = 0) :
    lineTail opts script responses display call i p e =
      (⟨[call], [],
        (if opts.showCommand then [Event.commandDisplay display] else [])
          ++ (if opts.showCommand then [Event.exitDisplay (script i)] else [])
          ++ (if 0 < opts.interval then [Event.sleep] else [])⟩,
        i + 1, p, e, none) := by
  simp [lineTail, hd, hi, hz]

theorem lineTail_exec_fail_force (opts : Options) (script : Nat → Int)
    (responses : Nat → String) (display : String) (call : ExecCall)
    (i p : Nat) (e : Int) (hd : opts.dryRun = false)
    (hi : opts.interactive = false) (hnz : script i ≠ 0)
    (hf : opts.forceContinue = true) :
    lineTail opts script responses display call i p e =
      (⟨[call], [],
        (if opts.showCommand then [Event.commandDisplay display] else [])
          ++ (if opts.showCommand then [Event.exitDisplay (script i)] else [])
          ++ (if 0 < opts.interval then [Event.sleep] else [])⟩,
        i + 1, p, script i, none) := by
  simp [lineTail, hd, hi, hnz, hf]

theorem lineTail_exec_fail_stop (opts : Options) (script : Nat → Int)
    (responses : Nat → String) (display : String) (call : ExecCall)
    (i p : Nat) (e : Int) (hd : opts.dryRun = false)
    (hi : opts.interactive = false) (hnz : script i ≠ 0)
    (hf : opts.forceContinue = false) :
    lineTail opts script responses display call i p e =
      (⟨[call], [],
        (if opts.showCommand then [Event.commandDisplay display] else [])
          ++ (if opts.showCommand then [Event.exitDisplay (script i)] else [])⟩,
        i + 1, p, script i, some (script i)) := by
  simp [lineTail, hd, hi, hnz, hf]

theorem runLines_no_halt (opts : Options) (args : List String)
    (script : Nat → Int) (responses : Nat → String)
    (hd : opts.dryRun = false) (hi : opts.interactive = false)
    (hcont : opts.forceContinue = true ∨ ∀ k, script k = 0) :
    ∀ (input : List String) (i p : Nat) (e : Int),
      (runLines opts args script responses input i p e).1.invocations
          = (nonemptyLines input).map (fun line => resolvedCall opts args line)
        ∧ (runLines opts args script responses input i p e).2
          = (foldErr script i (nonemptyLines input).length e, none) := by
  intro input
  induction input with
  | nil => intro i p e; simp [runLines, nonemptyLines, foldErr, Trace.nil]
  | cons l rest ih =>
    intro i p e
    by_cases he : trimRightNR l = ""
    · have hnz : nonemptyLines (l :: rest) = nonemptyLines rest := by
        simp [nonemptyLines, he]
      simp only [runLines, he, if_pos rfl]
      obtain ⟨ih1, ih2⟩ := ih i p e
      constructor
      · simpa [Trace.app, hnz] using ih1
      · simpa [hnz] using ih2
    · have hnz : nonemptyLines (l :: rest) = trimRightNR l :: nonemptyLines rest := by
        simp [nonemptyLines, he]
      rw [runLines_cons_step opts args script responses l rest i p e he]
      by_cases hz : script i = 0
      · rw [lineTail_exec_zero opts script responses _ _ i p e hd hi hz]
        obtain ⟨ih1, ih2⟩ := ih (i + 1) p e
        constructor
        · simp [Trace.app, hnz, ih1]
        · simp [hnz, foldErr, hz, ih2]
      · have hf : opts.forceContinue = true := by
          rcases hcont with hf | hall
          · exact hf
          · exact absurd (hall i) hz
        rw [lineTail_exec_fail_force opts script responses _ _ i p e hd hi hz hf]
        obtain ⟨ih1, ih2⟩ := ih (i + 1) p (script i)
        constructor
        · simp [Trace.app, hnz, ih1]
        · simp [hnz, foldErr, hz, ih2]

theorem foldErr_eq_lastNonZero (script : Nat → Int) :
    ∀ (n : Nat) (i : Nat) (e : Int),
      foldErr script i n e =
        (((List.range n).map (fun j => script (i + j))).filter
          (fun s => s ≠ 0)).getLastD e := by
  intro n
  induction n with
  | zero => intro i e; simp [foldErr]
  | succ n ih =>
    intro i e
    have hfe : ((List.range n).map Nat.succ).map (fun j => script (i + j))
        = (List.range n).map (fun j => script (i + 1 + j)) := by
      rw [List.map_map]
      exact List.map_congr_left fun j _ => congrArg script (by omega)
    rw [foldErr, ih, List.range_succ_eq_map, List.map_cons, hfe]
    simp only [Nat.add_zero]
    by_cases hz : script i = 0
    · have hfil : List.filter (fun s => decide (s ≠ 0))
          (script i :: (List.range n).map (fun j => script (i + 1 + j)))
          = List.filter (fun s => decide (s ≠ 0))
              ((List.range n).map (fun j => script (i + 1 + j))) := by
        simp [List.filter_cons, hz]
      rw [if_pos hz, hfil]
    · have hfil : List.filter (fun s => decide (s ≠ 0))
          (script i :: (List.range n).map (fun j => script (i + 1 + j)))
          = script i :: List.filter (fun s => decide (s ≠ 0))
              ((List.range n).map (fun j => script (i + 1 + j))) := by
        simp [List.filter_cons, hz]
      rw [if_neg hz, hfil, List.getLastD_cons]

theorem runLines_first_fail (opts : Options) (args : List String)
    (script : Nat → Int) (responses : Nat → String)
    (hd : opts.dryRun = false) (hi : opts.interactive = false)
    (hf : opts.forceContinue = false) :
    ∀ (input : List String) (i p : Nat) (e : Int) (m : Nat),
      (∀ l ∈ input, trimRightNR l ≠ "") → m < input.length →
      (∀ j, j < m → script (i + j) = 0) → script (i + m) ≠ 0 →
      (runLines opts args script responses input i p e).1.invocations
          = (input.take (m + 1)).map
              (fun l => resolvedCall opts args (trimRightNR l))
        ∧ (runLines opts args script responses input i p e).2
          = (script (i + m), some (script (i + m))) := by
  intro input
  induction input with
  | nil => intro i p e m _ hm; exact absurd hm (by simp)
  | cons l rest ih =>
    intro i p e m hne hm hz hnz
    have hel : ¬(trimRightNR l = "") := hne l (List.mem_cons_self _ _)
    rw [runLines_cons_step opts args script responses l rest i p e hel]
    cases m with
    | zero =>
      have hnz' : script i ≠ 0 := by simpa using hnz
      rw [lineTail_exec_fail_stop opts script responses _ _ i p e hd hi hnz' hf]
      constructor
      · simp [Trace.app]
      · simp
    | succ m' =>
      have hz0 : script i = 0 := by simpa using hz 0 (Nat.succ_pos m')
      rw [lineTail_exec_zero opts script responses _ _ i p e hd hi hz0]
      have hm' : m' < rest.length := by simpa using hm
      have hz' : ∀ j, j < m' → script (i + 1 + j) = 0 := fun j hj => by
        have := hz (j + 1) (by omega)
        simpa [show i + (j + 1) = i + 1 + j from by omega] using this
      have hnz' : script (i + 1 + m') ≠ 0 := by
        simpa [show i + (m' + 1) = i + 1 + m' from by omega] using hnz
      have hne' : ∀ x ∈ rest, trimRightNR x ≠ "" :=
        fun x hx => hne x (List.mem_cons_of_mem _ hx)
      obtain ⟨ih1, ih2⟩ := ih (i + 1) p e m' hne' hm' hz' hnz'
      constructor
      · simp [Trace.app, ih1, List.take_succ_cons]
      · simpa [show i + (m' + 1) = i + 1 + m' from by omega] using ih2

theorem mem_ite_nil {α : Type} {c : Prop} [Decidable c] {a x : α}
    (h : x ∈ (if c then [a] else [])) : x = a := by
  by_cases hc : c
  · simpa [hc] using h
  · simp [hc] at h

theorem runLines_dry (opts : Options) (args : List String)
    (script : Nat → Int) (responses : Nat → String)
    (hd : opts.dryRun = true) :
    ∀ (input : List String) (i p : Nat) (e : Int),
      (runLines opts args script responses input i p e).1.invocations = []
        ∧ (runLines opts args script responses input i p e).1.stdoutLines
          = (nonemptyLines input).map
              (fun line => resolvedDisplay opts args line)
        ∧ (∀ ev ∈ (runLines opts args script responses input i p e).1.events,
            isPromptEv ev = false ∧ isExitOrSleep ev = false)
        ∧ (runLines opts args script responses input i p e).2 = (e, none) := by
  intro input
  induction input with
  | nil => intro i p e; simp [runLines, nonemptyLines, Trace.nil]
  | cons l rest ih =>
    intro i p e
    by_cases he : trimRightNR l = ""
    · have hnz : nonemptyLines (l :: rest) = nonemptyLines rest := by
        simp [nonemptyLines, he]
      obtain ⟨ih1, ih2, ih3, ih4⟩ := ih i p e
      simp only [runLines, he, if_pos rfl]
      refine ⟨by simpa [Trace.app] using ih1, by simpa [Trace.app, hnz] using ih2,
        ?_, by simpa using ih4⟩
      intro ev hev
      simp only [Trace.app, List.nil_append] at hev
      rcases List.mem_append.mp hev with hev | hev
      · rw [mem_ite_nil hev]; constructor <;> rfl
      · exact ih3 ev hev
    · have hnz : nonemptyLines (l :: rest) = trimRightNR l :: nonemptyLines rest := by
        simp [nonemptyLines, he]
      rw [runLines_cons_step opts args script responses l rest i p e he]
      rw [lineTail_dry opts script responses _ _ i p e hd]
      obtain ⟨ih1, ih2, ih3, ih4⟩ := ih i p e
      refine ⟨by simpa [Trace.app] using ih1,
        by simp [Trace.app, hnz, ih2], ?_, by simpa using ih4⟩
      intro ev hev
      simp only [Trace.app, List.nil_append] at hev
      rcases List.mem_append.mp hev with hev | hev
      · rw [mem_ite_nil hev]; constructor <;> rfl
      · rcases List.mem_append.mp hev with hev | hev
        · rw [mem_ite_nil hev]; constructor <;> rfl
        · exact ih3 ev hev

theorem runLines_all_empty (opts : Options) (args : List String)
    (script : Nat → Int) (responses : Nat → String) :
    ∀ (input : List String), (∀ l ∈ input, trimRightNR l = "") →
      ∀ (i p : Nat) (e : Int),
        runLines opts args script responses input i p e =
          (⟨[], [],
            if opts.showWhat || opts.showCommand then
              input.map (fun _ => Event.emptyNotice)
            else []⟩, e, none) := by
  intro input
  induction input with
  | nil =>
    intro _ i p e
    simp [runLines, Trace.nil]
  | cons l rest ih =>
    intro h i p e
    have he : trimRightNR l = "" := h l (List.mem_cons_self _ _)
    have ih' := ih (fun x hx => h x (List.mem_cons_of_mem _ hx)) i p e
    simp only [runLines, he, if_pos rfl, ih']
    by_cases hflag : (opts.showWhat || opts.showCommand) = true <;>
      simp [Trace.app, hflag]

theorem runLines_decline (opts : Options) (args : List String)
    (script : Nat → Int) (responses : Nat → String)
    (hd : opts.dryRun = false) (hi : opts.interactive = true)
    (hr : ∀ k, responses k ≠ "y" ∧ responses k ≠ "Y") :
    ∀ (input : List String) (i p : Nat) (e : Int),
      (runLines opts args script responses input i p e).1.invocations = []
        ∧ (runLines opts args script responses input i p e).1.stdoutLines = []
        ∧ (∀ ev ∈ (runLines opts args script responses input i p e).1.events,
            isExitOrSleep ev = false)
        ∧ ((runLines opts args script responses input i p e).1.events.filter
            isPromptEv).length = (nonemptyLines input).length
        ∧ (runLines opts args script responses input i p e).2 = (e, none) := by
  intro input
  induction input with
  | nil => intro i p e; simp [runLines, nonemptyLines, Trace.nil]
  | cons l rest ih =>
    intro i p e
    by_cases he : trimRightNR l = ""
    · have hnz : nonemptyLines (l :: rest) = nonemptyLines rest := by
        simp [nonemptyLines, he]
      obtain ⟨ih1, ih2, ih3, ih4, ih5⟩ := ih i p e
      simp only [runLines, he, if_pos rfl]
      refine ⟨by simpa [Trace.app] using ih1, by simpa [Trace.app] using ih2,
        ?_, ?_, by simpa using ih5⟩
      · intro ev hev
        simp only [Trace.app, List.nil_append] at hev
        rcases List.mem_append.mp hev with hev | hev
        · rw [mem_ite_nil hev]; rfl
        · exact ih3 ev hev
      · by_cases hflag : (opts.showWhat || opts.showCommand) = true <;>
          simp [Trace.app, List.filter_append, hflag, isPromptEv, ih4, hnz]
    · have hnz : nonemptyLines (l :: rest) = trimRightNR l :: nonemptyLines rest := by
        simp [nonemptyLines, he]
      rw [runLines_cons_step opts args script responses l rest i p e he]
      rw [lineTail_declined opts script responses _ _ i p e hd hi (hr p)]
      obtain ⟨ih1, ih2, ih3, ih4, ih5⟩ := ih i (p + 1) e
      refine ⟨by simpa [Trace.app] using ih1, by simpa [Trace.app] using ih2,
        ?_, ?_, by simpa using ih5⟩
      · intro ev hev
        simp only [Trace.app, List.nil_append] at hev
        rcases List.mem_append.mp hev with hev | hev
        · rw [mem_ite_nil hev]; rfl
        · rcases List.mem_append.mp hev with hev | hev
          · rcases List.mem_append.mp hev with hev | hev
            · rw [mem_ite_nil hev]; rfl
            · rw [List.mem_singleton.mp hev]; rfl
          · exact ih3 ev hev
      · by_cases hw : opts.showWhat = true <;>
          by_cases hc : opts.showCommand = true <;>
            simp [Trace.app, List.filter_append, hw, hc, isPromptEv, ih4, hnz,
              Nat.add_comm]

theorem processStdin_fst (opts : Options) (args : List String)
    (script : Nat → Int) (responses : Nat → String) (input : List String) :
    (processStdin opts args script responses input).1
      = (runLines opts args script responses input 0 0 0).1 := by
  unfold processStdin
  rcases h : (runLines opts args script responses input 0 0 0).2.2 with _ | c <;>
    simp [h] <;> split <;> rfl

theorem processStdin_snd_of_none (opts : Options) (args : List String)
    (script : Nat → Int) (responses : Nat → String) (input : List String)
    (x : Int) (h : (runLines opts args script responses input 0 0 0).2 = (x, none)) :
    (processStdin opts args script responses input).2
      = (if x = 0 then RunResult.ok else RunResult.exitLast x) := by
  simp only [processStdin]
  rw [show (runLines opts args script responses input 0 0 0).2.2 = none from by
    rw [h]]
  by_cases hx : x = 0 <;>
    simp [show (runLines opts args script responses input 0 0 0).2.1 = x from by
      rw [h], hx]

theorem processStdin_snd_of_halt (opts : Options) (args : List String)
    (script : Nat → Int) (responses : Nat → String) (input : List String)
    (x c : Int)
    (h : (runLines opts args script responses input 0 0 0).2 = (x, some c)) :
    (processStdin opts args script responses input).2 = RunResult.errStop c := by
  simp only [processStdin]
  rw [show (runLines opts args script responses input 0 0 0).2.2 = some c from by
    rw [h]]

theorem head_dropWhile_not (p : Char → Bool) (l : List Char) :
    ∀ c ∈ (l.dropWhile p).head?, p c = false := by
  induction l with
  | nil => simp
  | cons a l ih =>
    by_cases hp : p a = true
    · simpa [List.dropWhile_cons, hp] using ih
    · simp [List.dropWhile_cons, hp]

/-- Options with every flag off and a zero interval (no `-f`, no `-n`,
no `-i`, no `-w`, no `-l`, direct mode). -/
def optsPlain : Options :=
  ⟨false, false, false, false, false, 0, false⟩

/-- An executor script that always succeeds. -/
def scriptZero : Nat → Int := fun _ => 0

/-- An executor script returning statuses 1, 0, 3 on the first three
invocations. -/
def scriptOneZeroThree : Nat → Int := fun k => [(1 : Int), 0, 3].getD k 0

/-- An unused confirmation-response source. -/
def respNone : Nat → String := fun _ => ""

/-- A confirmation-response source that always declines. -/
def respDecline : Nat → String := fun _ => "n"

/-- C2: with force-continue disabled, the first non-zero executor status
halts processing immediately — exactly the lines up to and including the
failing one produce invocations, no further lines are processed — and
that first non-zero status is the run's reported failing status. -/
theorem stop_on_error_halts_with_first_failure (opts : Options)
    (args : List String) (script : Nat → Int) (responses : Nat → String)
    (input : List String) (hd : opts.dryRun = false)
    (hi : opts.interactive = false) (hf : opts.forceContinue = false)
    (hne : ∀ l ∈ input, trimRightNR l ≠ "") (m : Nat) (hm : m < input.length)
    (hz : ∀ j, j < m → script j = 0) (hnz : script m ≠ 0) :
    (processStdin opts args script responses input).2
        = RunResult.errStop (script m)
      ∧ (processStdin opts args script responses input).1.invocations
        = (input.take (m + 1)).map
            (fun l => resolvedCall opts args (trimRightNR l)) := by
  obtain ⟨h1, h2⟩ := runLines_first_fail opts args script responses hd hi hf
    input 0 0 0 m hne hm (fun j hj => by simpa using hz j hj)
    (by simpa using hnz)
  constructor
  · have := processStdin_snd_of_halt opts args script responses input
      (script (0 + m)) (script (0 + m)) h2
    simpa using this
  · rw [processStdin_fst]
    exact h1

/-- C2 witness: executor status 2 on the first of three lines, stop-on-error:
one invocation, reported failing status 2. -/
theorem stop_on_error_halts_with_first_failure_witness :
    (processStdin optsPlain ["cmd"] (fun _ => 2) respNone ["a", "b", "c"]).2
        = RunResult.errStop 2
      ∧ (processStdin optsPlain ["cmd"] (fun _ => 2) respNone
          ["a", "b", "c"]).1.invocations.length = 1 := by
  obtain ⟨h1, h2⟩ := stop_on_error_halts_with_first_failure optsPlain ["cmd"]
    (fun _ => 2) respNone ["a", "b", "c"] rfl rfl rfl (by decide) 0 (by decide)
    (fun j hj => absurd hj (by omega)) (by decide)
  exact ⟨h1, by rw [h2]; decide⟩

/-- C3: with force-continue enabled, every non-empty input line is
processed to the end of the stream (one executor invocation each), and
the run's reported failing status is the last non-zero executor status
observed (the run is `ok` when every status was zero). -/
theorem force_continue_processes_all (opts : Options) (args : List String)
    (script : Nat → Int) (responses : Nat → String) (input : List String)
    (hd : opts.dryRun = false) (hi : opts.interactive = false)
    (hf : opts.forceContinue = true) :
    (processStdin opts args script responses input).1.invocations
        = (nonemptyLines input).map (fun line => resolvedCall opts args line)
      ∧ (processStdin opts args script responses input).2
        = (if (((List.range (nonemptyLines input).length).map script).filter
              (fun s => s ≠ 0)).getLastD 0 = 0 then RunResult.ok
           else RunResult.exitLast
             ((((List.range (nonemptyLines input).length).map script).filter
               (fun s => s ≠ 0)).getLastD 0)) := by
  obtain ⟨h1, h2⟩ := runLines_no_halt opts args script responses hd hi
    (Or.inl hf) input 0 0 0
  have hlast : foldErr script 0 (nonemptyLines input).length 0
      = (((List.range (nonemptyLines input).length).map script).filter
          (fun s => s ≠ 0)).getLastD 0 := by
    rw [foldErr_eq_lastNonZero]
    congr 2
    exact List.map_congr_left fun j _ => congrArg script (Nat.zero_add j)
  constructor
  · rw [processStdin_fst]
    exact h1
  · rw [processStdin_snd_of_none opts args script responses input _ h2, hlast]

/-- C3 witness: statuses [1,0,3] across three lines under force-continue:
three invocations and reported failing status 3. -/
theorem force_continue_processes_all_witness :
    (processStdin { optsPlain with forceContinue := true } ["cmd"]
        scriptOneZeroThree respNone ["a", "b", "c"]).1.invocations.length = 3
      ∧ (processStdin { optsPlain with forceContinue := true } ["cmd"]
          scriptOneZeroThree respNone ["a", "b", "c"]).2
        = RunResult.exitLast 3 := by
  obtain ⟨h1, h2⟩ := force_continue_processes_all
    { optsPlain with forceContinue := true } ["cmd"] scriptOneZeroThree
    respNone ["a", "b", "c"] rfl rfl rfl
  constructor
  · rw [h1]; decide
  · rw [h2]; decide

/-- C6: in direct mode, substitution is applied element-wise to the
argument template and the executor receives exactly that sequence of
strings, one invocation per non-empty line. -/
theorem direct_mode_argument_integrity (opts : Options) (args : List String)
    (script : Nat → Int) (responses : Nat → String) (input : List String)
    (hs : opts.shellMode = false) (hd : opts.dryRun = false)
    (hi : opts.interactive = false) (hz : ∀ k, script k = 0) :
    (processStdin opts args script responses input).1.invocations
      = (nonemptyLines input).map
          (fun line =>
            ExecCall.direct (args.map (fun a => replacePlaceholders a line))) := by
  obtain ⟨h1, _⟩ := runLines_no_halt opts args script responses hd hi
    (Or.inr hz) input 0 0 0
  rw [processStdin_fst, h1]
  exact List.map_congr_left fun line _ => by simp [resolvedCall, hs]

/-- C6 witness: template `["echo", "\x7b\x7d"]` and input line "a b" make the
executor receive exactly the two-element sequence `["echo", "a b"]`. -/
theorem direct_mode_argument_integrity_witness :
    (processStdin optsPlain ["echo", "\x7b\x7d"] scriptZero respNone
      ["a b"]).1.invocations = [ExecCall.direct ["echo", "a b"]] := by
  have h := direct_mode_argument_integrity optsPlain ["echo", "\x7b\x7d"]
    scriptZero respNone ["a b"] rfl rfl rfl (fun _ => rfl)
  rw [h]; decide

/-- C7: with dry-run enabled, the executor is never invoked, the primary
output stream receives exactly one resolved-command line per non-empty
input line, and confirmation prompts, exit-status displays and interval
sleeps never occur. -/
theorem dry_run_purity (opts : Options) (args : List String)
    (script : Nat → Int) (responses : Nat → String) (input : List String)
    (hd : opts.dryRun = true) :
    (processStdin opts args script responses input).1.invocations = []
      ∧ (processStdin opts args script responses input).1.stdoutLines
        = (nonemptyLines input).map (fun line => resolvedDisplay opts args line)
      ∧ (∀ ev ∈ (processStdin opts args script responses input).1.events,
          isPromptEv ev = false ∧ isExitOrSleep ev = false)
      ∧ (processStdin opts args script responses input).2 = RunResult.ok := by
  obtain ⟨h1, h2, h3, h4⟩ := runLines_dry opts args script responses hd
    input 0 0 0
  refine ⟨by rw [processStdin_fst]; exact h1,
    by rw [processStdin_fst]; exact h2,
    by rw [processStdin_fst]; exact h3, ?_⟩
  rw [processStdin_snd_of_none opts args script responses input 0 h4]
  simp

/-- C7 witness: dry-run over two non-empty lines and a blank line. -/
theorem dry_run_purity_witness :
    (processStdin { optsPlain with dryRun := true } ["echo", "\x7b\x7d"]
        scriptZero respNone ["x", "", "y"]).1.invocations = []
      ∧ (processStdin { optsPlain with dryRun := true } ["echo", "\x7b\x7d"]
          scriptZero respNone ["x", "", "y"]).1.stdoutLines
        = ["echo x", "echo y"] := by
  obtain ⟨h1, h2, _, _⟩ := dry_run_purity { optsPlain with dryRun := true }
    ["echo", "\x7b\x7d"] scriptZero respNone ["x", "", "y"] rfl
  exact ⟨h1, by rw [h2]; decide⟩

/-- C8: when every input line strips to the empty string, no invocation,
no primary output and no sleep occur, the run is `ok`, and an
"[empty line]" notice is emitted per line exactly when target-display or
command-display is enabled. -/
theorem empty_line_skip (opts : Options) (args : List String)
    (script : Nat → Int) (responses : Nat → String) (input : List String)
    (h : ∀ l ∈ input, trimRightNR l = "") :
    (processStdin opts args script responses input).1
        = ⟨[], [],
            if opts.showWhat || opts.showCommand then
              input.map (fun _ => Event.emptyNotice)
            else []⟩
      ∧ (processStdin opts args script responses input).2 = RunResult.ok := by
  have hrun := runLines_all_empty opts args script responses input h 0 0 0
  have h2 : (runLines opts args script responses input 0 0 0).2 = (0, none) := by
    rw [hrun]
  refine ⟨by rw [processStdin_fst, hrun], ?_⟩
  rw [processStdin_snd_of_none opts args script responses input 0 h2]
  simp

/-- C8 witness: two blank lines with target-display enabled yield no
invocations and exactly two empty-line notices. -/
theorem empty_line_skip_witness :
    (processStdin { optsPlain with showWhat := true } ["cmd"] scriptZero
        respNone ["", "\r\n"]).1
      = ⟨[], [], [Event.emptyNotice, Event.emptyNotice]⟩ := by
  obtain ⟨h1, _⟩ := empty_line_skip { optsPlain with showWhat := true } ["cmd"]
    scriptZero respNone ["", "\r\n"] (by decide)
  rw [h1]; decide

/-- C9: in interactive mode, when every confirmation response is neither
"y" nor "Y", every non-empty line is prompted but skipped entirely: no
executor invocation, no exit-status display, no sleep, no primary output,
and the run outcome stays `ok`. -/
theorem interactive_decline_skips (opts : Options) (args : List String)
    (script : Nat → Int) (responses : Nat → String) (input : List String)
    (hd : opts.dryRun = false) (hi : opts.interactive = true)
    (hr : ∀ k, responses k ≠ "y" ∧ responses k ≠ "Y") :
    (processStdin opts args script responses input).1.invocations = []
      ∧ (processStdin opts args script responses input).1.stdoutLines = []
      ∧ (∀ ev ∈ (processStdin opts args script responses input).1.events,
          isExitOrSleep ev = false)
      ∧ ((processStdin opts args script responses input).1.events.filter
          isPromptEv).length = (nonemptyLines input).length
      ∧ (processStdin opts args script responses input).2 = RunResult.ok := by
  obtain ⟨h1, h2, h3, h4, h5⟩ := runLines_decline opts args script responses
    hd hi hr input 0 0 0
  refine ⟨by rw [processStdin_fst]; exact h1,
    by rw [processStdin_fst]; exact h2,
    by rw [processStdin_fst]; exact h3,
    by rw [processStdin_fst]; exact h4, ?_⟩
  rw [processStdin_snd_of_none opts args script responses input 0 h5]
  simp

/-- C9 witness: two non-empty lines, every response "n", executor scripted
to fail: no invocations, two prompts, run outcome `ok`. -/
theorem interactive_decline_skips_witness :
    (processStdin { optsPlain with interactive := true } ["cmd"]
        (fun _ => 2) respDecline ["a", "b"]).1.invocations = []
      ∧ ((processStdin { optsPlain with interactive := true } ["cmd"]
          (fun _ => 2) respDecline ["a", "b"]).1.events.filter
            isPromptEv).length = 2
      ∧ (processStdin { optsPlain with interactive := true } ["cmd"]
          (fun _ => 2) respDecline ["a", "b"]).2 = RunResult.ok := by
  obtain ⟨h1, _, _, h4, h5⟩ := interactive_decline_skips
    { optsPlain with interactive := true } ["cmd"] (fun _ => 2) respDecline
    ["a", "b"] rfl rfl (fun k => ⟨fun hk => by simp [respDecline] at hk,
      fun hk => by simp [respDecline] at hk⟩)
  exact ⟨h1, by rw [h4]; decide, h5⟩

/-- C1 divergence: with force-continue disabled and the executor failing
with status 2 on the first line, the run's reported failing status is 2
(the stop-on-error error carries it), but the host process exits with
status 1, because `main` reacts to any `processStdin` error with
`os.Exit(1)` (`main.go:63-66`) — not with the failing status.  The claim
(and the repository's own README) require the host exit status to equal
the failing status 2. -/
theorem exit_status_stop_on_error_bug :
    (processStdin optsPlain ["cmd"] (fun _ => 2) respNone ["a"]).2
        = RunResult.errStop 2
      ∧ hostExit (processStdin optsPlain ["cmd"] (fun _ => 2) respNone ["a"]).2
        = 1
      ∧ hostExit (processStdin optsPlain ["cmd"] (fun _ => 2) respNone ["a"]).2
        ≠ 2 := by
  decide

/-- C1 context: the force-continue half of the claim does hold — with `-f`,
statuses [1,0,3] give host exit status 3 (the last non-zero) — and a run
with no failures exits 0; only the stop-on-error half diverges. -/
theorem exit_status_force_continue_holds :
    hostExit (processStdin { optsPlain with forceContinue := true } ["cmd"]
        scriptOneZeroThree respNone ["a", "b", "c"]).2 = 3
      ∧ hostExit (processStdin optsPlain ["cmd"] scriptZero respNone
          ["a", "b", "c"]).2 = 0 := by
  decide

/-- C4: substitution decomposes the template into its marker-free segments
and re-joins them with the replacement string: every non-overlapping
occurrence of the marker is replaced by one verbatim copy of `R` in a
single pass (occurrences inside `R` are not re-substituted, since `R`'s
copies are inserted verbatim between segments), and a template with no
occurrence is returned unchanged. -/
theorem replacePlaceholders_replaces_every_marker (T R : String) :
    replacePlaceholders T R = ⟨joinSep R.data (splitBr T.data)⟩
      ∧ joinSep brPat (splitBr T.data) = T.data
      ∧ (∀ q ∈ splitBr T.data, hasBr q = false)
      ∧ (hasBr T.data = true ↔ ∃ x y, T.data = x ++ '\x7b' :: '\x7d' :: y)
      ∧ (hasBr T.data = false → replacePlaceholders T R = T) := by
  refine ⟨congrArg String.mk (replBr_eq_joinSep R.data T.data),
    joinSep_splitBr T.data, splitBr_no_marker T.data, hasBr_iff_decomp T.data,
    fun h => ?_⟩
  show String.mk (replBr R.data T.data) = T
  rw [replBr_of_no_marker R.data T.data h]

/-- C4 witness: "a\x7b\x7db" with replacement "x" yields "axb"; a template
without the marker is returned unchanged. -/
theorem replacePlaceholders_replaces_every_marker_witness :
    replacePlaceholders "a\x7b\x7db" "x" = "axb"
      ∧ replacePlaceholders "ab" "x" = "ab" := by
  refine ⟨?_, (replacePlaceholders_replaces_every_marker "ab" "x").2.2.2.2
    (by decide)⟩
  have h := (replacePlaceholders_replaces_every_marker "a\x7b\x7db" "x").1
  rw [h]; decide

/-- C5 counterexample: for template "\x7b\x7d" and replacement "x" the output
"x" contains zero marker occurrences while one occurrence was removed
from the template, so "the number of marker occurrences in the output
equals the number of occurrences removed from T" fails. -/
theorem subst_output_count_counterexample :
    replacePlaceholders "\x7b\x7d" "x" = "x"
      ∧ countPos (String.mk ['\x7b', '\x7d']).data = 1
      ∧ countPos (replacePlaceholders "\x7b\x7d" "x").data = 0
      ∧ countPos (replacePlaceholders "\x7b\x7d" "x").data
        ≠ countPos (String.mk ['\x7b', '\x7d']).data := by
  decide

/-- C5 amended: the number of replacement copies inserted equals the number
of marker occurrences removed from the template — the output is the
template's `countBr T + 1` marker-free segments re-joined with `R`, where
`countBr` agrees with the position-based occurrence count — and a template
with no occurrence is returned unchanged for any `R`. -/
theorem subst_marker_count_amended (T R : String) :
    (splitBr T.data).length = countBr T.data + 1
      ∧ countBr T.data = countPos T.data
      ∧ replacePlaceholders T R = ⟨joinSep R.data (splitBr T.data)⟩
      ∧ (countBr T.data = 0 → replacePlaceholders T R = T) := by
  refine ⟨splitBr_length T.data, countBr_eq_countPos T.data,
    congrArg String.mk (replBr_eq_joinSep R.data T.data), fun h => ?_⟩
  show String.mk (replBr R.data T.data) = T
  rw [replBr_of_no_marker R.data T.data ((countBr_eq_zero_iff T.data).mp h)]

/-- C5 amended witness: "a\x7b\x7db\x7b\x7d" has two occurrences and three
segments; "ab" has none and is returned unchanged. -/
theorem subst_marker_count_amended_witness :
    (splitBr ("a\x7b\x7db\x7b\x7d" : String).data).length = 3
      ∧ countBr ("a\x7b\x7db\x7b\x7d" : String).data = 2
      ∧ replacePlaceholders "ab" "zz" = "ab" := by
  refine ⟨by decide, by decide,
    (subst_marker_count_amended "ab" "zz").2.2.2 (by decide)⟩

/-- C10: every scanned line has ALL trailing carriage-return and line-feed
characters stripped before processing (the stripped result is a prefix of
the line, the removed suffix consists only of CR/LF, and the result does
not end in CR/LF); end to end, the payload "abc\r\r\n" is substituted and
executed as "abc". -/
theorem trim_strips_all_trailing_crlf :
    (∀ s : String, ∃ suf,
        s.data = (trimRightNR s).data ++ suf
          ∧ suf.all isNR = true
          ∧ ((trimRightNR s).data.getLast?.all (fun c => !(isNR c))) = true)
      ∧ (processStdin optsPlain ["echo", "\x7b\x7d"] scriptZero respNone
          ["abc\r\r\n"]).1.invocations = [ExecCall.direct ["echo", "abc"]] := by
  constructor
  · intro s
    refine ⟨(s.data.reverse.takeWhile isNR).reverse, ?_, ?_, ?_⟩
    · conv_lhs => rw [← s.data.reverse_reverse,
        ← List.takeWhile_append_dropWhile (p := isNR) (l := s.data.reverse)]
      rw [List.reverse_append]
      rfl
    · rw [List.all_eq_true]
      intro c hc
      exact List.mem_takeWhile_imp (List.mem_reverse.mp hc)
    · show ((s.data.reverse.dropWhile isNR).reverse.getLast?.all
        (fun c => !(isNR c))) = true
      rw [List.getLast?_reverse]
      rcases hh : (s.data.reverse.dropWhile isNR).head? with _ | c
      · rfl
      · have := head_dropWhile_not isNR s.data.reverse c (by rw [hh]; rfl)
        simp [Option.all, this]
  · decide
